import Mathlib

/-!
Verification of the core logic of the word-bingo application
(revisions in `src/src/App.tsx` and `src/unnamed/part_000`).

The JavaScript values flowing through the normalization layer are modelled
by the inductive `JVal` below (the JSON-plus-undefined fragment the code can
receive).  JavaScript numbers are modelled on the integer fragment (`Int`,
with `NaN` as a separate constructor); the claims only exercise integral
values.  All functions are translated from the TypeScript source; the grid
side is the constant `SIZE = 4` and the required line count is
`REQUIRED_LINES = 3`.
-/

/-- Model of a JavaScript/JSON value as received by the normalizer.
`vnan` is the number NaN; `vundefined` is `undefined`. -/
inductive JVal where
  | vnull
  | vundefined
  | vnum (n : Int)
  | vnan
  | vstr (s : String)
  | vbool (b : Bool)
  | varr (elems : List JVal)
  | vobj (fields : List (String × JVal))
deriving Repr

/-- JavaScript truthiness: `null`, `undefined`, `false`, `0`, `NaN` and the
empty string are falsy; every object and array is truthy. -/
def truthy : JVal → Bool
  | .vnull => false
  | .vundefined => false
  | .vnum n => n != 0
  | .vnan => false
  | .vstr s => s != ""
  | .vbool b => b
  | .varr _ => true
  | .vobj _ => true

/-- `typeof v === "object"` (true for `null`, arrays and plain objects). -/
def typeofObject : JVal → Bool
  | .vnull => true
  | .varr _ => true
  | .vobj _ => true
  | _ => false

/-- `Array.isArray` (the source's `isArr`). -/
def isArr : JVal → Bool
  | .varr _ => true
  | _ => false

mutual

/-- The `String(v)` coercion on the modelled fragment. -/
def jsToString : JVal → String
  | .vnull => "null"
  | .vundefined => "undefined"
  | .vnum n => toString n
  | .vnan => "NaN"
  | .vstr s => s
  | .vbool b => if b then "true" else "false"
  | .varr xs => String.intercalate "," (jsArrStrings xs)
  | .vobj _ => "[object Object]"

/-- `Array.prototype.join` stringifies elements, with `null` and `undefined`
becoming the empty string. -/
def jsArrStrings : List JVal → List String
  | [] => []
  | .vnull :: xs => "" :: jsArrStrings xs
  | .vundefined :: xs => "" :: jsArrStrings xs
  | x :: xs => jsToString x :: jsArrStrings xs

end

/-- The source's `S`: `(v) => String(v ?? "")` — `null`/`undefined` become
the empty string, everything else is string-coerced. -/
def S : JVal → String
  | .vnull => ""
  | .vundefined => ""
  | v => jsToString v

/-- `String.prototype.trim`: strip whitespace from both ends
(computable model of trimming, over the character list). -/
def jsTrim (s : String) : String :=
  String.mk (((s.data.dropWhile Char.isWhitespace).reverse.dropWhile Char.isWhitespace).reverse)

/-- Accumulator loop for `natOfDigits`. -/
def natOfDigitsAux : List Char → Nat → Option Nat
  | [], acc => some acc
  | c :: cs, acc =>
      if c.isDigit then natOfDigitsAux cs (acc * 10 + (c.toNat - 48)) else none

/-- The value of a non-empty all-digit character sequence. -/
def natOfDigits : List Char → Option Nat
  | [] => none
  | l => natOfDigitsAux l 0

/-- `Number(s)` for a string, on the integer fragment: trimmed-empty is `0`,
an optionally signed integer literal is its value, anything else is NaN
(`none`). -/
def strToNum (s : String) : Option Int :=
  match (jsTrim s).data with
  | [] => some 0
  | '-' :: rest => (natOfDigits rest).map (fun n => -(n : Int))
  | '+' :: rest => (natOfDigits rest).map (fun n => (n : Int))
  | t => (natOfDigits t).map (fun n => (n : Int))

/-- `Number(v)`: the numeric coercion (`none` is NaN). Arrays coerce through
their join-string, plain objects to NaN. -/
def jsToNum : JVal → Option Int
  | .vnull => some 0
  | .vundefined => none
  | .vnum n => some n
  | .vnan => none
  | .vstr s => strToNum s
  | .vbool b => some (if b then 1 else 0)
  | .varr xs => strToNum (jsToString (.varr xs))
  | .vobj _ => none

/-- Property access `v[k]` (with the `?.` behaviour on non-objects, which is
how every access in the source is guarded): assoc-lookup on objects, index
access on arrays, `undefined` otherwise. -/
def getField : JVal → String → JVal
  | .vobj fields, k => (fields.lookup k).getD .vundefined
  | .varr xs, k =>
      match natOfDigits k.data with
      | some i => if toString i = k then xs.getD i .vundefined else .vundefined
      | none => .vundefined
  | _, _ => .vundefined

/-- `Object.keys`: own keys of an object, index strings of an array,
empty for the remaining (unreachable in the source) cases. -/
def objKeys : JVal → List String
  | .vobj fields => fields.map Prod.fst
  | .varr xs => (List.range xs.length).map toString
  | _ => []

/-- `normalizeWords`: a non-array becomes `[]`; otherwise
`raw.map(S).map((s) => s.trim()).filter(Boolean)`. -/
def normalizeWords : JVal → List String
  | .varr xs => (((xs.map S).map (fun s => jsTrim s)).filter (fun s => s != ""))
  | _ => []

/-- The normalized configuration (the source's `Config`). Categories keep
JavaScript object-key order as an association list. -/
structure Config where
  cats : List (String × List String)
  size : Int
  lines : Int
  ord : List String
deriving Repr, DecidableEq

/-- `Number(x) || d`: substitute the default when the coercion is falsy
(NaN or 0). -/
def jsNumOr (n : Option Int) (d : Int) : Int :=
  match n with
  | some k => if k = 0 then d else k
  | none => d

/-- `SIZE` in the source. -/
def SIZE : Nat := 4

/-- `REQUIRED_LINES` in the source. -/
def REQUIRED_LINES : Nat := 3

/-- `normalizeConfig`, translated clause by clause from the source:
`cats` is kept only when truthy and `typeof === "object"`; every key's value
goes through `normalizeWords`; `ord` is word-list-normalized when it is an
array and otherwise falls back to the category keys; `size` and `lines` use
`Number(x) || default`. -/
def normalizeConfig (json : JVal) : Config :=
  let c := getField json "cats"
  let rawCats := if truthy c && typeofObject c then c else .vobj []
  let cats := (objKeys rawCats).map (fun k => (S (.vstr k), normalizeWords (getField rawCats k)))
  let o := getField json "ord"
  let ord := if isArr o then normalizeWords o else cats.map Prod.fst
  let size := jsNumOr (jsToNum (getField json "size")) (Int.ofNat SIZE)
  let lines := jsNumOr (jsToNum (getField json "lines")) (Int.ofNat REQUIRED_LINES)
  ⟨cats, size, lines, ord⟩

/-- `PlayerPage`'s display order:
`(data.ord && data.ord.length ? data.ord : Object.keys(cats)).filter((n) => !!cats[n])`. -/
def displayOrder (cfg : Config) : List String :=
  (if cfg.ord.isEmpty then cfg.cats.map Prod.fst else cfg.ord).filter
    (fun n => (cfg.cats.lookup n).isSome)

/-- The display-order rule exactly as the specification words it: when the
raw order field is a list, always normalize-then-filter; otherwise use the
category keys.  (Stated from the spec, for comparison with `displayOrder`;
the code adds a fallback when the normalized list is empty.) -/
def claimedDisplayOrder (json : JVal) : List String :=
  if isArr (getField json "ord") then
    (normalizeWords (getField json "ord")).filter
      (fun n => ((normalizeConfig json).cats.lookup n).isSome)
  else (normalizeConfig json).cats.map Prod.fst

/-- One Fisher–Yates swap `[a[i], a[j]] = [a[j], a[i]]` on a list; identity
when an index is out of range (unreachable with in-range draws). -/
def listSwap {α : Type} (l : List α) (i j : Nat) : List α :=
  match l[i]?, l[j]? with
  | some x, some y => (l.set i y).set j x
  | _, _ => l

/-- The `for (let i = a.length - 1; i > 0; i--)` loop of `shuffle`; `rand i`
is the drawn index `Math.floor(Math.random() * (i + 1))` at loop index `i`
(always in `[0, i]` at run time; the development never needs that bound). -/
def shuffleLoop {α : Type} (rand : Nat → Nat) : Nat → List α → List α
  | 0, a => a
  | i + 1, a => shuffleLoop rand i (listSwap a (i + 1) (rand (i + 1)))

/-- `shuffle`: copy the array, then run Fisher–Yates from the last index
down to 1, with the random draws supplied by `rand`. -/
def shuffle {α : Type} (arr : List α) (rand : Nat → Nat) : List α :=
  shuffleLoop rand (arr.length - 1) arr

/-- The error thrown by `generateCard` (message
`단어 풀이 부족합니다. (필요: ..., 제공: ...)` carries both counts). -/
structure InsufficientWords where
  required : Nat
  actual : Nat
deriving Repr, DecidableEq

/-- Row-major layout of the picked words into the 4×4 grid
(`grid[r][c] = picks[4*r+c]`; out-of-range reads, which the length guard
prevents, give the empty string as `S(undefined)` would). -/
def buildGrid (picks : List String) : List (List String) :=
  (List.range SIZE).map (fun r => (List.range SIZE).map (fun c => picks.getD (SIZE * r + c) ""))

/-- `generateCard` of `src/src/App.tsx` (already-normalized word list):
guard on `words.length < SIZE * SIZE`, shuffle, take the first 16, lay out
row-major. -/
def generateCard (words : List String) (rand : Nat → Nat) :
    Except InsufficientWords (List (List String)) :=
  let needed := SIZE * SIZE
  if words.length < needed then .error ⟨needed, words.length⟩
  else .ok (buildGrid ((shuffle words rand).take needed))

/-- `generateCard` of `src/unnamed/part_000`: it first runs its argument
through `normalizeWords` and then performs the identical guard/shuffle/layout
(its extra `S(...)` on each cell is the identity on strings). -/
def generateCardAny (wordsInput : JVal) (rand : Nat → Nat) :
    Except InsufficientWords (List (List String)) :=
  generateCard (normalizeWords wordsInput) rand

/-- `marked[r][c]` with JavaScript indexing modelled by defaults (the
theorems only use it on genuine 4×4 matrices, where every read is in
range). -/
def cellAt (m : List (List Bool)) (r c : Nat) : Bool :=
  (m.getD r []).getD c false

/-- `countCompletedLines`: count full rows (via `.every` on the row),
full columns (indexed reads), and the two diagonals, in that order. -/
def countCompletedLines (marked : List (List Bool)) : Nat :=
  let rows := ((List.range SIZE).filter (fun r => (marked.getD r []).all (fun b => b))).length
  let cols :=
    ((List.range SIZE).filter (fun c => (List.range SIZE).all (fun r => cellAt marked r c))).length
  let d1 := (List.range SIZE).all (fun i => cellAt marked i i)
  let d2 := (List.range SIZE).all (fun i => cellAt marked i (SIZE - 1 - i))
  rows + cols + (if d1 then 1 else 0) + (if d2 then 1 else 0)

/-- JavaScript `Array.prototype.map` with the index argument, starting the
index at `k`. -/
def mapIdxFrom {α β : Type} (f : Nat → α → β) : Nat → List α → List β
  | _, [] => []
  | k, x :: xs => f k x :: mapIdxFrom f (k + 1) xs

/-- `arr.map((x, i) => f(i, x))`. -/
def jsMapIdx {α β : Type} (f : Nat → α → β) (l : List α) : List β :=
  mapIdxFrom f 0 l

/-- `toggle`:
`cur.map((row, ri) => row.map((m, ci) => (ri === r && ci === c ? !m : m)))`. -/
def toggle (m : List (List Bool)) (r c : Nat) : List (List Bool) :=
  jsMapIdx (fun ri row => jsMapIdx (fun ci b => if ri == r && ci == c then !b else b) row) m

/-- A well-formed 4×4 mark matrix. -/
def is4x4 (m : List (List Bool)) : Bool :=
  m.length == 4 && m.all (fun row => row.length == 4)

/-- The ten candidate lines of a 4×4 card, as coordinate lists: the 4 rows,
the 4 columns, and both diagonals (stated from the claim's wording). -/
def lineCoords : List (List (Nat × Nat)) :=
  ((List.range 4).map (fun r => (List.range 4).map (fun c => (r, c)))) ++
    ((List.range 4).map (fun c => (List.range 4).map (fun r => (r, c)))) ++
    [(List.range 4).map (fun i => (i, i)), (List.range 4).map (fun i => (i, 3 - i))]

/-- The number of completed lines as the claim describes it: how many of the
ten candidate lines have every cell marked. -/
def specLineCount (m : List (List Bool)) : Nat :=
  (lineCoords.filter (fun line => line.all (fun p => cellAt m p.1 p.2))).length

theorem list_eq_of_length_four {α : Type} :
    ∀ (l : List α), l.length = 4 → ∃ a b c d, l = [a, b, c, d]
  | [a, b, c, d], _ => ⟨a, b, c, d, rfl⟩
  | [], h => by simp at h
  | [_], h => by simp at h
  | [_, _], h => by simp at h
  | [_, _, _], h => by simp at h
  | _ :: _ :: _ :: _ :: _ :: _, h => by simp at h

set_option maxHeartbeats 1000000 in
theorem countCompletedLines_eq_specLineCount (m : List (List Bool)) (h : is4x4 m = true) :
    countCompletedLines m = specLineCount m := by
  simp only [is4x4, Bool.and_eq_true, beq_iff_eq, List.all_eq_true] at h
  obtain ⟨hlen, hrows⟩ := h
  obtain ⟨r0, r1, r2, r3, rfl⟩ := list_eq_of_length_four m hlen
  obtain ⟨a, b, c, d, rfl⟩ := list_eq_of_length_four r0 (by simpa using hrows _ (by simp))
  obtain ⟨e, f, g, h, rfl⟩ := list_eq_of_length_four r1
    (by simpa using hrows r1 (by simp))
  obtain ⟨i, j, k, l, rfl⟩ := list_eq_of_length_four r2
    (by simpa using hrows r2 (by simp))
  obtain ⟨mm, n, o, p, rfl⟩ := list_eq_of_length_four r3
    (by simpa using hrows r3 (by simp))
  simp only [countCompletedLines, specLineCount, lineCoords, cellAt, SIZE,
    ← List.countP_eq_length_filter, List.countP_cons, List.countP_nil,
    List.range_succ, List.range_zero, List.filter_append, List.getD_cons_zero,
    List.getD_cons_succ, List.getElem?_cons_zero, List.getElem?_cons_succ,
    Option.getD_some, Option.getD_none, List.nil_append, List.cons_append,
    List.all_cons, List.all_nil, List.map_cons, List.map_nil,
    Bool.and_true, Bool.and_eq_true, decide_eq_true_eq]
  ring

theorem cons_set_perm {α : Type} :
    ∀ (t : List α) (k : Nat) (x y : α), t[k]? = some y →
      List.Perm (y :: t.set k x) (x :: t)
  | [], _, _, _, h => by simp at h
  | a :: t, 0, x, y, h => by
      have ha : a = y := by simpa using h
      show List.Perm (y :: x :: t) (x :: a :: t)
      rw [← ha]
      exact List.Perm.swap x a t
  | a :: t, k + 1, x, y, h => by
      have ih := cons_set_perm t k x y (by simpa using h)
      show List.Perm (y :: a :: t.set k x) (x :: a :: t)
      exact (List.Perm.swap a y (t.set k x)).trans ((ih.cons a).trans (List.Perm.swap x a t))

theorem set_set_perm {α : Type} :
    ∀ (l : List α) (i j : Nat) (x y : α), l[i]? = some x → l[j]? = some y →
      List.Perm ((l.set i y).set j x) l
  | [], _, _, _, _, hi, _ => by simp at hi
  | a :: t, 0, 0, x, y, hi, _ => by
      have hx : a = x := by simpa using hi
      show List.Perm (x :: t) (a :: t)
      rw [hx]
  | a :: t, 0, j + 1, x, y, hi, hj => by
      have hx : a = x := by simpa using hi
      show List.Perm (y :: t.set j x) (a :: t)
      rw [hx]
      exact cons_set_perm t j x y (by simpa using hj)
  | a :: t, i + 1, 0, x, y, hi, hj => by
      have hy : a = y := by simpa using hj
      show List.Perm (x :: t.set i y) (a :: t)
      rw [hy]
      exact cons_set_perm t i y x (by simpa using hi)
  | a :: t, i + 1, j + 1, x, y, hi, hj => by
      show List.Perm (a :: (t.set i y).set j x) (a :: t)
      exact (set_set_perm t i j x y (by simpa using hi) (by simpa using hj)).cons a

theorem listSwap_perm {α : Type} (l : List α) (i j : Nat) :
    List.Perm (listSwap l i j) l := by
  unfold listSwap
  cases hi : l[i]? with
  | none => simp
  | some x =>
      cases hj : l[j]? with
      | none => simp
      | some y => simpa using set_set_perm l i j x y hi hj

theorem shuffleLoop_perm {α : Type} (rand : Nat → Nat) :
    ∀ (i : Nat) (a : List α), List.Perm (shuffleLoop rand i a) a
  | 0, a => List.Perm.refl a
  | i + 1, a =>
      (shuffleLoop_perm rand i (listSwap a (i + 1) (rand (i + 1)))).trans
        (listSwap_perm a (i + 1) (rand (i + 1)))

theorem shuffle_perm {α : Type} (arr : List α) (rand : Nat → Nat) :
    List.Perm (shuffle arr rand) arr :=
  shuffleLoop_perm rand (arr.length - 1) arr

theorem mapIdxFrom_length {α β : Type} (f : Nat → α → β) :
    ∀ (k : Nat) (l : List α), (mapIdxFrom f k l).length = l.length
  | _, [] => rfl
  | k, _ :: xs => by simp [mapIdxFrom, mapIdxFrom_length f (k + 1) xs]

theorem mapIdxFrom_getElem? {α β : Type} (f : Nat → α → β) :
    ∀ (k i : Nat) (l : List α), (mapIdxFrom f k l)[i]? = (l[i]?).map (f (k + i))
  | _, _, [] => by simp [mapIdxFrom]
  | k, 0, x :: xs => by simp [mapIdxFrom]
  | k, i + 1, x :: xs => by
      simp only [mapIdxFrom, List.getElem?_cons_succ]
      rw [mapIdxFrom_getElem? f (k + 1) i xs]
      have harith : k + 1 + i = k + (i + 1) := by omega
      rw [harith]

theorem mapIdxFrom_comp {α β γ : Type} (f : Nat → α → β) (g : Nat → β → γ) :
    ∀ (k : Nat) (l : List α),
      mapIdxFrom g k (mapIdxFrom f k l) = mapIdxFrom (fun i a => g i (f i a)) k l
  | _, [] => rfl
  | k, x :: xs => by simp [mapIdxFrom, mapIdxFrom_comp f g (k + 1) xs]

theorem mapIdxFrom_eq_self {α : Type} (f : Nat → α → α) (h : ∀ i a, f i a = a) :
    ∀ (k : Nat) (l : List α), mapIdxFrom f k l = l
  | _, [] => rfl
  | k, x :: xs => by simp [mapIdxFrom, h, mapIdxFrom_eq_self f h (k + 1) xs]

theorem mem_mapIdxFrom {α β : Type} (f : Nat → α → β) :
    ∀ (k : Nat) (l : List α) (x : β), x ∈ mapIdxFrom f k l →
      ∃ i, ∃ h : i < l.length, x = f (k + i) (l.get ⟨i, h⟩)
  | _, [], _, hx => by simp [mapIdxFrom] at hx
  | k, a :: t, x, hx => by
      rw [mapIdxFrom, List.mem_cons] at hx
      rcases hx with hx | hx
      · exact ⟨0, by simp, by simpa using hx⟩
      · obtain ⟨i, hi, hfx⟩ := mem_mapIdxFrom f (k + 1) t x hx
        refine ⟨i + 1, by simpa using hi, ?_⟩
        have harith : k + (i + 1) = k + 1 + i := by omega
        rw [harith]
        simpa using hfx

theorem range_map_getD {α : Type} (d : α) :
    ∀ (l : List α), (List.range l.length).map (fun i => l.getD i d) = l
  | [] => by simp
  | x :: xs => by
      rw [List.length_cons, List.range_succ_eq_map, List.map_cons, List.map_map]
      simp only [List.getD_cons_zero, Function.comp_def, List.getD_cons_succ]
      rw [range_map_getD d xs]

theorem buildGrid_flatten (l : List String) (h : l.length = 16) :
    (buildGrid l).flatten = l := by
  have h16 : (buildGrid l).flatten = (List.range 16).map (fun i => l.getD i "") := by
    simp [buildGrid, SIZE, List.range_succ]
  rw [h16, ← h, range_map_getD]

theorem buildGrid_length (l : List String) : (buildGrid l).length = 4 := by
  simp [buildGrid, SIZE]

theorem buildGrid_rows (l : List String) : ∀ row ∈ buildGrid l, row.length = 4 := by
  intro row hrow
  simp only [buildGrid, SIZE, List.mem_map] at hrow
  obtain ⟨r, _, rfl⟩ := hrow
  simp

theorem cellAt_toggle (m : List (List Bool)) (r c ri ci : Nat)
    (hri : ri < m.length) (hci : ci < (m.getD ri []).length) :
    cellAt (toggle m r c) ri ci =
      if ri == r && ci == c then !(cellAt m ri ci) else cellAt m ri ci := by
  have hrow : m.getD ri [] = m[ri] := by
    rw [List.getD_eq_getElem?_getD, List.getElem?_eq_getElem hri, Option.getD_some]
  have hci2 : ci < (m[ri]).length := by rw [← hrow]; exact hci
  have hcell : cellAt m ri ci = (m[ri])[ci] := by
    rw [cellAt, hrow, List.getD_eq_getElem?_getD, List.getElem?_eq_getElem hci2,
      Option.getD_some]
  rw [hcell]
  unfold cellAt toggle jsMapIdx
  simp only [List.getD_eq_getElem?_getD]
  rw [mapIdxFrom_getElem?, Nat.zero_add, List.getElem?_eq_getElem hri]
  simp only [Option.map_some', Option.getD_some]
  rw [mapIdxFrom_getElem?, Nat.zero_add, List.getElem?_eq_getElem hci2]
  simp only [Option.map_some', Option.getD_some]

theorem toggle_length (m : List (List Bool)) (r c : Nat) :
    (toggle m r c).length = m.length :=
  mapIdxFrom_length _ 0 m

theorem toggle_is4x4 (m : List (List Bool)) (r c : Nat) (h : is4x4 m = true) :
    is4x4 (toggle m r c) = true := by
  simp only [is4x4, Bool.and_eq_true, beq_iff_eq, List.all_eq_true] at h ⊢
  obtain ⟨hlen, hrows⟩ := h
  refine ⟨by rw [toggle_length]; exact hlen, ?_⟩
  intro row hrow
  obtain ⟨i, hi, heq⟩ := mem_mapIdxFrom _ 0 m row hrow
  subst heq
  simpa [jsMapIdx, mapIdxFrom_length] using hrows _ (List.get_mem m i hi)

theorem lookup_isSome_of_mem_keys {β : Type} :
    ∀ (l : List (String × β)) (k : String), k ∈ l.map Prod.fst →
      (l.lookup k).isSome = true
  | [], k, h => by simp at h
  | (k0, v) :: t, k, h => by
      rw [List.map_cons, List.mem_cons] at h
      by_cases hk : (k == k0) = true
      · simp [List.lookup, hk]
      · rcases h with h | h
        · exact absurd (by simpa using h) (by simpa using hk)
        · simp [List.lookup, hk, lookup_isSome_of_mem_keys t k h]

theorem filter_keys_self {β : Type} (l : List (String × β)) :
    (l.map Prod.fst).filter (fun n => (l.lookup n).isSome) = l.map Prod.fst := by
  rw [List.filter_eq_self]
  intro a ha
  exact lookup_isSome_of_mem_keys l a ha


/-- C10: for every array and every choice of random draws, `shuffle` returns
a permutation of the input — same elements with the same multiplicities and
the same length (the input itself is untouched: `shuffle` works on the copy
`[...arr]`, which the purely functional embedding renders as value
passing). -/
theorem shuffle_is_permutation {α : Type} (arr : List α) (rand : Nat → Nat) :
    List.Perm (shuffle arr rand) arr ∧
    (shuffle arr rand).length = arr.length ∧
    ((shuffle arr rand : List α) : Multiset α) = ((arr : List α) : Multiset α) :=
  ⟨shuffle_perm arr rand, (shuffle_perm arr rand).length_eq,
    Multiset.coe_eq_coe.mpr (shuffle_perm arr rand)⟩

/-- C4: on a 4×4 mark matrix, toggling the same in-range cell twice returns
the original matrix — `toggle` is self-inverse. -/
theorem toggle_self_inverse (m : List (List Bool)) (r c : Nat) (h : is4x4 m = true)
    (hr : r < 4) (hc : c < 4) :
    toggle (toggle m r c) r c = m := by
  unfold toggle jsMapIdx
  rw [mapIdxFrom_comp]
  refine mapIdxFrom_eq_self _ ?_ 0 m
  intro ri row
  dsimp only
  rw [mapIdxFrom_comp]
  refine mapIdxFrom_eq_self _ ?_ 0 row
  intro ci b
  dsimp only
  by_cases hcond : (ri == r && ci == c) = true
  · simp [hcond]
  · simp [hcond]

theorem toggle_self_inverse_witness :
    is4x4 (List.replicate 4 (List.replicate 4 false)) = true ∧ 1 < 4 ∧ 2 < 4 ∧
    toggle (toggle (List.replicate 4 (List.replicate 4 false)) 1 2) 1 2 =
      List.replicate 4 (List.replicate 4 false) :=
  ⟨by decide, by decide, by decide,
    toggle_self_inverse (List.replicate 4 (List.replicate 4 false)) 1 2
      (by decide) (by decide) (by decide)⟩

/-- C5: on a 4×4 mark matrix, `toggle` negates exactly the targeted in-range
cell, leaves every other cell unchanged, and returns a matrix of the same
4×4 shape. -/
theorem toggle_flips_only_target (m : List (List Bool)) (r c : Nat)
    (h : is4x4 m = true) (hr : r < 4) (hc : c < 4) :
    cellAt (toggle m r c) r c = !(cellAt m r c) ∧
    (∀ ri ci, ri < 4 → ci < 4 → ¬(ri = r ∧ ci = c) →
      cellAt (toggle m r c) ri ci = cellAt m ri ci) ∧
    is4x4 (toggle m r c) = true := by
  obtain ⟨hlen, hrows⟩ : m.length = 4 ∧ ∀ row ∈ m, row.length = 4 := by
    simpa [is4x4, List.all_eq_true] using h
  have hrowlen : ∀ ri, ri < 4 → (m.getD ri []).length = 4 := by
    intro ri hri
    have hmem : m.getD ri [] ∈ m := by
      rw [List.getD_eq_getElem?_getD, List.getElem?_eq_getElem (by omega : ri < m.length),
        Option.getD_some]
      exact List.getElem_mem _
    exact hrows _ hmem
  refine ⟨?_, ?_, toggle_is4x4 m r c h⟩
  · rw [cellAt_toggle m r c r c (by omega) (by rw [hrowlen r hr]; omega)]
    simp
  · intro ri ci hri hci hne
    rw [cellAt_toggle m r c ri ci (by omega) (by rw [hrowlen ri hri]; omega)]
    have hcond : ¬((ri == r && ci == c) = true) := by
      simpa [Bool.and_eq_true, beq_iff_eq] using hne
    rw [if_neg hcond]

theorem toggle_flips_only_target_witness :
    is4x4 (List.replicate 4 (List.replicate 4 false)) = true ∧ 0 < 4 ∧ 3 < 4 ∧
    (cellAt (toggle (List.replicate 4 (List.replicate 4 false)) 0 3) 0 3 =
        !(cellAt (List.replicate 4 (List.replicate 4 false)) 0 3) ∧
      (∀ ri ci, ri < 4 → ci < 4 → ¬(ri = 0 ∧ ci = 3) →
        cellAt (toggle (List.replicate 4 (List.replicate 4 false)) 0 3) ri ci =
          cellAt (List.replicate 4 (List.replicate 4 false)) ri ci) ∧
      is4x4 (toggle (List.replicate 4 (List.replicate 4 false)) 0 3) = true) :=
  ⟨by decide, by decide, by decide,
    toggle_flips_only_target (List.replicate 4 (List.replicate 4 false)) 0 3
      (by decide) (by decide) (by decide)⟩

/-- C3: on every 4×4 matrix, `countCompletedLines` returns the exact,
uncapped number of completed lines among the 4 rows, 4 columns and 2
diagonals; the all-false matrix yields 0, the all-true matrix 10, and the
matrix with only row 0 marked yields 1. -/
theorem countCompletedLines_exact :
    (∀ m, is4x4 m = true → countCompletedLines m = specLineCount m) ∧
    countCompletedLines (List.replicate 4 (List.replicate 4 false)) = 0 ∧
    countCompletedLines (List.replicate 4 (List.replicate 4 true)) = 10 ∧
    countCompletedLines
      [List.replicate 4 true, List.replicate 4 false, List.replicate 4 false,
        List.replicate 4 false] = 1 :=
  ⟨countCompletedLines_eq_specLineCount, by decide, by decide, by decide⟩

theorem countCompletedLines_exact_witness :
    is4x4 (List.replicate 4 (List.replicate 4 true)) = true ∧
    countCompletedLines (List.replicate 4 (List.replicate 4 true)) =
      specLineCount (List.replicate 4 (List.replicate 4 true)) :=
  ⟨by decide, countCompletedLines_exact.1 _ (by decide)⟩

/-- C6: `normalizeWords` turns a non-list into `[]`, and a list into the
string coercion of each element (null/undefined becoming the empty string)
trimmed and with empty strings dropped, preserving order and duplicates; in
particular `["x","y",null,"  z  ","y"]` normalizes to `["x","y","z","y"]`. -/
theorem normalizeWords_normalizes (raw : JVal) :
    (isArr raw = false → normalizeWords raw = []) ∧
    (∀ xs, raw = .varr xs →
      normalizeWords raw =
        (xs.map (fun x => jsTrim (S x))).filter (fun s => s != "")) ∧
    normalizeWords (.varr [.vstr "x", .vstr "y", .vnull, .vstr "  z  ", .vstr "y"]) =
      ["x", "y", "z", "y"] := by
  refine ⟨?_, ?_, by decide⟩
  · intro hraw
    cases raw <;> simp_all [normalizeWords, isArr]
  · rintro xs rfl
    simp [normalizeWords, List.map_map, Function.comp_def]

theorem normalizeWords_normalizes_witness :
    normalizeWords (.vnum 5) = [] ∧
    normalizeWords (.varr [.vstr " a ", .vnull]) =
      (([JVal.vstr " a ", JVal.vnull].map (fun x => jsTrim (S x))).filter
        (fun s => s != "")) :=
  ⟨(normalizeWords_normalizes (.vnum 5)).1 rfl,
    (normalizeWords_normalizes (.varr [.vstr " a ", .vnull])).2.1 _ rfl⟩

/-- C2: whenever the normalized word pool has fewer than 16 entries,
`generateCard` fails with the error carrying the required count 16 and the
actual count, producing no grid. -/
theorem generateCard_insufficient_words (raw : JVal) (rand : Nat → Nat)
    (h : (normalizeWords raw).length < 16) :
    generateCardAny raw rand = .error ⟨16, (normalizeWords raw).length⟩ := by
  simp only [generateCardAny, generateCard]
  rw [if_pos (by simpa [SIZE] using h)]
  rfl

theorem generateCard_insufficient_words_witness :
    (normalizeWords (.varr [.vstr "a", .vstr "b", .vstr "c"])).length < 16 ∧
    generateCardAny (.varr [.vstr "a", .vstr "b", .vstr "c"]) (fun _ => 0) =
      .error ⟨16, (normalizeWords (.varr [.vstr "a", .vstr "b", .vstr "c"])).length⟩ :=
  ⟨by decide,
    generateCard_insufficient_words (.varr [.vstr "a", .vstr "b", .vstr "c"])
      (fun _ => 0) (by decide)⟩

/-- C1: for every word list with at least 16 entries and every choice of
random draws, `generateCard` returns a 4×4 row-major grid whose 16 cells,
as a multiset, are contained in the input's multiset, and which are
pairwise distinct whenever the input has no duplicates. -/
theorem generateCard_produces_valid_grid (W : List String) (rand : Nat → Nat)
    (h : 16 ≤ W.length) :
    ∃ g, generateCard W rand = .ok g ∧
      g.length = 4 ∧ (∀ row ∈ g, row.length = 4) ∧
      ((g.flatten : List String) : Multiset String) ≤ ((W : List String) : Multiset String) ∧
      (W.Nodup → g.flatten.Nodup) := by
  have hperm := shuffle_perm W rand
  have hslen : (shuffle W rand).length = W.length := hperm.length_eq
  have hpicks : ((shuffle W rand).take 16).length = 16 := by
    rw [List.length_take]
    omega
  have hflat := buildGrid_flatten _ hpicks
  refine ⟨buildGrid ((shuffle W rand).take 16), ?_, buildGrid_length _, buildGrid_rows _,
    ?_, ?_⟩
  · simp only [generateCard]
    rw [if_neg (by simp only [SIZE]; omega)]
    rfl
  · rw [hflat]
    have h1 : (((shuffle W rand).take 16 : List String) : Multiset String) ≤
        ((shuffle W rand : List String) : Multiset String) :=
      Multiset.coe_le.mpr ((List.take_sublist _ _).subperm)
    have h2 : ((shuffle W rand : List String) : Multiset String) =
        ((W : List String) : Multiset String) :=
      Multiset.coe_eq_coe.mpr hperm
    rw [← h2]
    exact h1
  · intro hnd
    rw [hflat]
    exact List.Nodup.sublist (List.take_sublist _ _) (hperm.nodup_iff.mpr hnd)

theorem generateCard_produces_valid_grid_witness :
    16 ≤ (["cat", "dog", "fox", "owl", "bee", "ant", "cow", "pig", "rat", "bat",
      "elk", "ram", "hen", "yak", "boa", "eel"] : List String).length ∧
    (∃ g, generateCard ["cat", "dog", "fox", "owl", "bee", "ant", "cow", "pig",
        "rat", "bat", "elk", "ram", "hen", "yak", "boa", "eel"] (fun _ => 0) = .ok g ∧
      g.length = 4 ∧ (∀ row ∈ g, row.length = 4) ∧
      ((g.flatten : List String) : Multiset String) ≤
        ((["cat", "dog", "fox", "owl", "bee", "ant", "cow", "pig", "rat", "bat",
          "elk", "ram", "hen", "yak", "boa", "eel"] : List String) : Multiset String) ∧
      ((["cat", "dog", "fox", "owl", "bee", "ant", "cow", "pig", "rat", "bat",
          "elk", "ram", "hen", "yak", "boa", "eel"] : List String).Nodup →
        g.flatten.Nodup)) :=
  ⟨by decide,
    generateCard_produces_valid_grid _ (fun _ => 0) (by decide)⟩

/-- C7 counterexample: on `{cats:{"A":["x"]}, ord:[]}` the code's display
order is `["A"]` (empty normalized order falls back to the category keys),
while the claimed rule — a list order always goes through
normalize-then-filter — yields `[]`. -/
theorem displayOrder_claim_counterexample :
    displayOrder (normalizeConfig
      (.vobj [("cats", .vobj [("A", .varr [.vstr "x"])]), ("ord", .varr [])])) = ["A"] ∧
    claimedDisplayOrder
      (.vobj [("cats", .vobj [("A", .varr [.vstr "x"])]), ("ord", .varr [])]) = [] ∧
    displayOrder (normalizeConfig
        (.vobj [("cats", .vobj [("A", .varr [.vstr "x"])]), ("ord", .varr [])])) ≠
      claimedDisplayOrder
        (.vobj [("cats", .vobj [("A", .varr [.vstr "x"])]), ("ord", .varr [])]) := by
  refine ⟨by decide, by decide, by decide⟩

/-- C7 amended: when the raw order field is a list whose word-list
normalization is nonempty, the display order is that normalization filtered
to names present in the category mapping; otherwise (not a list, or
normalizing to the empty list) it is the category mapping's key sequence.
In particular `{cats:{"A":[...]}, ord:["A","B"]}` displays `["A"]`. -/
theorem displayOrder_amended (json : JVal) :
    (isArr (getField json "ord") = true →
      normalizeWords (getField json "ord") ≠ [] →
      displayOrder (normalizeConfig json) =
        (normalizeWords (getField json "ord")).filter
          (fun n => ((normalizeConfig json).cats.lookup n).isSome)) ∧
    ((isArr (getField json "ord") = false ∨ normalizeWords (getField json "ord") = []) →
      displayOrder (normalizeConfig json) = (normalizeConfig json).cats.map Prod.fst) := by
  constructor
  · intro hA hne
    have hord : (normalizeConfig json).ord = normalizeWords (getField json "ord") := by
      simp [normalizeConfig, hA]
    have hfalse : (normalizeWords (getField json "ord")).isEmpty = false := by
      rcases hl : normalizeWords (getField json "ord") with _ | ⟨a, t⟩
      · exact absurd hl hne
      · rfl
    unfold displayOrder
    rw [hord, hfalse]
    simp
  · rintro (hA | hne)
    · have hord : (normalizeConfig json).ord = (normalizeConfig json).cats.map Prod.fst := by
        simp [normalizeConfig, hA]
      unfold displayOrder
      rw [hord, ite_self]
      exact filter_keys_self _
    · by_cases hA : isArr (getField json "ord") = true
      · have hord : (normalizeConfig json).ord = [] := by
          simp [normalizeConfig, hA, hne]
        unfold displayOrder
        rw [hord]
        exact filter_keys_self _
      · have hord : (normalizeConfig json).ord = (normalizeConfig json).cats.map Prod.fst := by
          simp [normalizeConfig, hA]
        unfold displayOrder
        rw [hord, ite_self]
        exact filter_keys_self _

theorem displayOrder_amended_witness :
    (isArr (getField (.vobj [("cats", .vobj [("A", .varr [.vstr "x"])]),
        ("ord", .varr [.vstr "A", .vstr "B"])]) "ord") = true ∧
      normalizeWords (getField (.vobj [("cats", .vobj [("A", .varr [.vstr "x"])]),
        ("ord", .varr [.vstr "A", .vstr "B"])]) "ord") ≠ [] ∧
      displayOrder (normalizeConfig (.vobj [("cats", .vobj [("A", .varr [.vstr "x"])]),
          ("ord", .varr [.vstr "A", .vstr "B"])])) =
        (normalizeWords (getField (.vobj [("cats", .vobj [("A", .varr [.vstr "x"])]),
            ("ord", .varr [.vstr "A", .vstr "B"])]) "ord")).filter
          (fun n => (((normalizeConfig (.vobj [("cats", .vobj [("A", .varr [.vstr "x"])]),
            ("ord", .varr [.vstr "A", .vstr "B"])])).cats.lookup n).isSome))) ∧
    displayOrder (normalizeConfig (.vobj [("cats", .vobj [("A", .varr [.vstr "x"])]),
        ("ord", .varr [.vstr "A", .vstr "B"])])) = ["A"] :=
  ⟨⟨by decide, by decide,
      (displayOrder_amended (.vobj [("cats", .vobj [("A", .varr [.vstr "x"])]),
        ("ord", .varr [.vstr "A", .vstr "B"])])).1 (by decide) (by decide)⟩,
    by decide⟩

/-- C8 counterexample: `Number(x) || default` keeps negative numbers, so
`{size: -1}` normalizes to size `-1`, not the default 4 the claim
predicts. -/
theorem size_negative_kept_counterexample :
    (normalizeConfig (.vobj [("size", .vnum (-1))])).size = -1 ∧
    ¬((normalizeConfig (.vobj [("size", .vnum (-1))])).size = 4) := by
  refine ⟨by decide, by decide⟩

/-- C8 amended: `size` and `lines` are numerically coerced; the defaults
(4 and 3) are substituted exactly when the coercion is falsy — NaN or 0 —
while any other number, negative ones included, is kept. -/
theorem size_lines_coercion (json : JVal) :
    ((jsToNum (getField json "size") = none ∨ jsToNum (getField json "size") = some 0) →
      (normalizeConfig json).size = 4) ∧
    (∀ k : Int, jsToNum (getField json "size") = some k → k ≠ 0 →
      (normalizeConfig json).size = k) ∧
    ((jsToNum (getField json "lines") = none ∨ jsToNum (getField json "lines") = some 0) →
      (normalizeConfig json).lines = 3) ∧
    (∀ k : Int, jsToNum (getField json "lines") = some k → k ≠ 0 →
      (normalizeConfig json).lines = k) := by
  refine ⟨?_, ?_, ?_, ?_⟩
  · rintro (hn | hn) <;> simp [normalizeConfig, jsNumOr, hn, SIZE]
  · intro k hk hk0
    simp [normalizeConfig, jsNumOr, hk, hk0]
  · rintro (hn | hn) <;> simp [normalizeConfig, jsNumOr, hn, REQUIRED_LINES]
  · intro k hk hk0
    simp [normalizeConfig, jsNumOr, hk, hk0]

theorem size_lines_coercion_witness :
    (normalizeConfig (.vobj [("size", .vnum 7)])).size = 7 ∧
    (normalizeConfig (.vobj [("size", .vnum 7)])).lines = 3 :=
  ⟨(size_lines_coercion (.vobj [("size", .vnum 7)])).2.1 7 (by decide) (by decide),
    (size_lines_coercion (.vobj [("size", .vnum 7)])).2.2.1 (Or.inl (by decide))⟩

/-- C9: configuration normalization is a total function of the embedding
(every branch of `normalizeConfig` is defined on every `JVal`), and whenever
the `cats` field fails the guard (falsy, or `typeof` not `"object"`), the
category mapping is empty and — absent a list `ord` — so is the display
order. -/
theorem normalizeConfig_total (json : JVal)
    (h : ¬(truthy (getField json "cats") = true ∧
      typeofObject (getField json "cats") = true)) :
    (normalizeConfig json).cats = [] ∧
    (isArr (getField json "ord") = false → (normalizeConfig json).ord = []) ∧
    displayOrder (normalizeConfig json) = [] := by
  have hguard : (truthy (getField json "cats") && typeofObject (getField json "cats")) =
      false := by
    cases h1 : truthy (getField json "cats") <;>
      cases h2 : typeofObject (getField json "cats") <;> simp_all
  have hcats : (normalizeConfig json).cats = [] := by
    simp [normalizeConfig, hguard, objKeys]
  refine ⟨hcats, ?_, ?_⟩
  · intro ho
    simp [normalizeConfig, hguard, ho, objKeys]
  · unfold displayOrder
    rw [hcats]
    simp [List.filter_eq_nil_iff]

theorem normalizeConfig_total_witness :
    (¬(truthy (getField (.vobj [("cats", .vstr "not-an-object")]) "cats") = true ∧
      typeofObject (getField (.vobj [("cats", .vstr "not-an-object")]) "cats") = true)) ∧
    ((normalizeConfig (.vobj [("cats", .vstr "not-an-object")])).cats = [] ∧
      (isArr (getField (.vobj [("cats", .vstr "not-an-object")]) "ord") = false →
        (normalizeConfig (.vobj [("cats", .vstr "not-an-object")])).ord = []) ∧
      displayOrder (normalizeConfig (.vobj [("cats", .vstr "not-an-object")])) = []) :=
  ⟨by decide, normalizeConfig_total (.vobj [("cats", .vstr "not-an-object")]) (by decide)⟩
